import Mathlib

/-!
Verification of the pgrx array view and layout-walking codec
(`src/pgrx/src/datum/array.rs`).

The embedding follows the source: machine pointers into the contiguous data
buffer become `Nat` offsets from the data start, the buffer itself becomes a
`List Nat` of bytes, and the per-element-type decode capability
(`T::from_polymorphic_datum`) is instantiated at the `Datum` level, so a
decoded element is the `Nat` datum the source would hand to that capability.
Panics in the source become `Except.error` with the panic message.
-/

namespace PgrxArray

/-- Passing mode of an element type (crate layout, `PassBy`). -/
inductive PassBy
  | Value
  | Ref
deriving DecidableEq

/-- Size class of an element type (crate layout, `Size`). -/
inductive Size
  | Fixed (n : Nat)
  | Varlena
  | CStr
deriving DecidableEq

/-- Layout descriptor of an element type (crate layout, `Layout`):
size class, required byte alignment, passing mode. -/
structure Layout where
  size : Size
  align : Nat
  pass : PassBy
deriving DecidableEq

/-- Presence model `NullKind` from `array.rs`: a null bitmap borrowed from the
array (one bit per logical slot, `true` = valid) or the strict all-present
fast path carrying the element count. -/
inductive NullKind
  | Bits (b1 : List Bool)
  | Strict (len : Nat)
deriving DecidableEq

/-- `NullKind::get`: `None` out of bounds, otherwise `Some(is_null)`.
Postgres nullbitmaps are 1 for valid and 0 for null, so the bit is flipped. -/
def NullKind.get : NullKind → Nat → Option Bool
  | NullKind.Bits b1, index => (b1[index]?).map (fun b => !b)
  | NullKind.Strict len, index => if index < len then some false else none

/-- `NullKind::any`: does any null exist?  For bits, true unless all bits are
set; strict arrays never contain nulls. -/
def NullKind.any : NullKind → Bool
  | NullKind.Bits b1 => !(b1.all (fun b => b))
  | NullKind.Strict _ => false

/-- The array view `Array` from `array.rs`: presence model, element layout,
and the raw side (its data buffer as bytes and its logical length). -/
structure ArrayData where
  null_slice : NullKind
  elem_layout : Layout
  buf : List Nat
  len : Nat

/-- Bytes of a machine word (`std::mem::size_of::<usize>()` on 64-bit). -/
def USIZE_BYTE_LEN : Nat := 8

/-- Little-endian read of `size` bytes starting at offset `p`
(the `copy_nonoverlapping` into a zero-padded word in `bytes_to_datum`). -/
def readLE (buf : List Nat) (p : Nat) : Nat → Nat
  | 0 => 0
  | size + 1 => buf.getD p 0 + 256 * readLE buf (p + 1) size

/-- `bytes_to_datum` from `Array::bring_it_back_now`: copy `size` bytes from
the head of `ptr` into a zero-extended word using platform (little)
endianness; panics unless `1 <= size <= USIZE_BYTE_LEN`. -/
def bytes_to_datum (buf : List Nat) (p size : Nat) : Except String Nat :=
  if 1 ≤ size ∧ size ≤ USIZE_BYTE_LEN then Except.ok (readLE buf p size)
  else Except.error "unexpected fixed size array element size"

/-- Modelled from the spec: `varlena::varsize_any` is not under src/.  The
spec (§4.3) says a variable-length element is self-describing: a length
header at `ptr`, in either a compact 1-byte-prefixed or a full 4-byte-prefixed
encoding, gives the total length of the element, header included.  We model
the compact form as a first byte with its lowest bit set whose upper seven
bits hold the total length, and the full form as a 4-byte little-endian word
whose upper thirty bits hold the total length. -/
def varsize_any (buf : List Nat) (p : Nat) : Nat :=
  let b0 := buf.getD p 0
  if b0 % 2 = 1 then b0 / 2
  else readLE buf p 4 / 4

/-- Length of the byte run before the first zero byte of `l`
(`CStr::from_ptr(..).to_bytes().len()` counted from the head of the list). -/
def cstrLenAux : List Nat → Nat
  | [] => 0
  | b :: rest => if b = 0 then 0 else cstrLenAux rest + 1

/-- Distance from offset `p` to the first zero byte at or after `p`. -/
def cstrLen (buf : List Nat) (p : Nat) : Nat := cstrLenAux (buf.drop p)

/-- `Array::one_hop_this_time`: advance a pointer over one present element
according to the element layout.  Fixed-size elements advance by their size;
varlena elements advance by their self-described size rounded up to the
layout alignment via the mask trick `varsize &&& (align - 1)`; C strings
advance by `strlen + 2`. -/
def one_hop_this_time (buf : List Nat) (layout : Layout) (ptr : Nat) : Nat :=
  let offset :=
    match layout with
    | { size := Size.Fixed n, .. } => n
    | { size := Size.Varlena, align := align, .. } =>
      let varsize := varsize_any buf ptr
      let align_mask := varsize &&& (align - 1)
      let align_offset := if align_mask ≠ 0 then align - align_mask else 0
      varsize + align_offset
    | { size := Size.CStr, .. } =>
      let strlen := cstrLen buf ptr
      strlen + 2
  ptr + offset

/-- `Array::bring_it_back_now`: extract one element from the data buffer at
`ptr`.  `Except.error` stands for the panic branches of the source; the
external `T::from_polymorphic_datum` capability is instantiated at the datum
level, so a successfully extracted element is the datum itself. -/
def ArrayData.bring_it_back_now (a : ArrayData) (ptr : Nat) (is_null : Bool) :
    Except String (Option Nat) :=
  if is_null then Except.ok none
  else
    match a.elem_layout.pass with
    | PassBy.Value =>
      match a.elem_layout.size with
      | Size.Fixed size => (bytes_to_datum a.buf ptr size).map some
      | _ => Except.error "unrecognized pass-by-value array element layout size"
    | PassBy.Ref => Except.ok (some ptr)

/-- The pointer-walking loop of `Array::get`: starting from the data start,
for each index `i` in `0..index` consult the presence model; a null is
skipped (the data buffer has no placeholders for nulls), a present
predecessor costs one hop, and a missing presence answer is the
`unreachable` panic of the source. -/
def ArrayData.walk (a : ArrayData) : Nat → Except String Nat
  | 0 => Except.ok 0
  | i + 1 =>
    match a.walk i with
    | Except.error e => Except.error e
    | Except.ok at_byte =>
      match a.null_slice.get i with
      | none => Except.error "array was exceeded while walking to known non-null index???"
      | some true => Except.ok at_byte
      | some false => Except.ok (one_hop_this_time a.buf a.elem_layout at_byte)

/-- `Array::get`: outer `none` when the index is out of logical bounds, inner
`none` for a logical null, otherwise the element decoded at the offset the
walk reaches. -/
def ArrayData.get (a : ArrayData) (index : Nat) : Except String (Option (Option Nat)) :=
  match a.null_slice.get index with
  | none => Except.ok none
  | some true => Except.ok (some none)
  | some false =>
    match a.walk index with
    | Except.error e => Except.error e
    | Except.ok at_byte =>
      match a.bring_it_back_now at_byte false with
      | Except.error e => Except.error e
      | Except.ok elem => Except.ok (some elem)

/-- The byte offset at which index `i` would be decoded, written as the spec
describes it: start at the data start and invoke the hop function exactly
once per present predecessor index, consulting the presence model at every
such index. -/
def ArrayData.walkPtr (a : ArrayData) : Nat → Nat
  | 0 => 0
  | i + 1 =>
    if a.null_slice.get i = some false then
      one_hop_this_time a.buf a.elem_layout (a.walkPtr i)
    else a.walkPtr i

/-- Cursor state shared by the iterators: logical index and byte offset. -/
structure IterState where
  curr : Nat
  ptr : Nat
deriving DecidableEq

/-- `Array::iter`: a fresh cursor at the data start. -/
def ArrayData.iter (_ : ArrayData) : IterState := ⟨0, 0⟩

/-- `Array::iter_deny_null`: panics (errors) before producing any cursor if
the presence model reports any null. -/
def ArrayData.iter_deny_null (a : ArrayData) : Except String IterState :=
  if a.null_slice.any then Except.error "array contains NULL"
  else Except.ok ⟨0, 0⟩

/-- `ArrayIterator::next`: stop when the presence model runs out; otherwise
extract at the current byte offset, bump the logical index, and hop the byte
offset only when the slot at the already-bumped index is present. -/
def ArrayIterator.next (a : ArrayData) (s : IterState) :
    Option (Except String (Option Nat) × IterState) :=
  match a.null_slice.get s.curr with
  | none => none
  | some is_null =>
    let element := a.bring_it_back_now s.ptr is_null
    let curr := s.curr + 1
    let ptr :=
      if a.null_slice.get curr = some false then
        one_hop_this_time a.buf a.elem_layout s.ptr
      else s.ptr
    some (element, ⟨curr, ptr⟩)

/-- `ArrayIntoIterator::next`: same body as `ArrayIterator::next`. -/
def ArrayIntoIterator.next (a : ArrayData) (s : IterState) :
    Option (Except String (Option Nat) × IterState) :=
  match a.null_slice.get s.curr with
  | none => none
  | some is_null =>
    let element := a.bring_it_back_now s.ptr is_null
    let curr := s.curr + 1
    let ptr :=
      if a.null_slice.get curr = some false then
        one_hop_this_time a.buf a.elem_layout s.ptr
      else s.ptr
    some (element, ⟨curr, ptr⟩)

/-- `ArrayIntoIterator::size_hint`: lower bound drops to zero whenever a null
bitmap is present. -/
def ArrayIntoIterator.size_hint (a : ArrayData) (s : IterState) : Nat × Option Nat :=
  let left := a.len - s.curr
  match a.null_slice with
  | NullKind.Strict _ => (left, some left)
  | NullKind.Bits _ => (0, some left)

/-- Fuelled draining of `ArrayIterator`: collect the yielded items until the
iterator reports exhaustion (or the fuel runs out). -/
def drainFrom (a : ArrayData) : Nat → IterState → List (Except String (Option Nat))
  | 0, _ => []
  | fuel + 1, s =>
    match ArrayIterator.next a s with
    | none => []
    | some (x, s1) => x :: drainFrom a fuel s1

/-- Cursor state of `ArrayIntoIterator` after `k` calls to `next` from a
fresh cursor (unchanged once the iterator is exhausted). -/
def stateAfterInto (a : ArrayData) : Nat → IterState
  | 0 => ⟨0, 0⟩
  | k + 1 =>
    match ArrayIntoIterator.next a (stateAfterInto a k) with
    | none => stateAfterInto a k
    | some (_, s1) => s1

/-- The raw side `Array::deconstruct_from` consumes: the element layout the
registry resolved for the element type oid, the element count, the optional
null bitmap, and the data buffer. -/
structure RawArrayModel where
  elem_layout : Layout
  len : Nat
  nulls_bitmap : Option (List Bool)
  buf : List Nat

/-- `Array::deconstruct_from`: build the presence model (bitmap if the buffer
declares one, else strict), and eagerly assert that a fixed-size layout has a
size that is a multiple of its alignment, panicking otherwise. -/
def ArrayData.deconstruct_from (raw : RawArrayModel) : Except String ArrayData :=
  let nelems := raw.len
  let null_slice :=
    match raw.nulls_bitmap with
    | some bits => NullKind.Bits bits
    | none => NullKind.Strict nelems
  match raw.elem_layout with
  | { size := Size.Fixed n, align := align, .. } =>
    if n % align = 0 then
      Except.ok
        { null_slice := null_slice, elem_layout := raw.elem_layout
          buf := raw.buf, len := nelems }
    else Except.error "typlen does NOT include padding for fixed-width layouts!"
  | _ =>
    Except.ok
      { null_slice := null_slice, elem_layout := raw.elem_layout
        buf := raw.buf, len := nelems }

/-- Modelled from the spec: construction of the Layout Descriptor
(`Layout::lookup_oid` in the crate layout module) is not under src/.  Per the
spec (§4.4), a by-value passing mode combined with a non-fixed size class is
a configuration error, fatal at construction time of the Layout Descriptor. -/
def Layout.construct (pass : PassBy) (size : Size) (align : Nat) : Option Layout :=
  match pass, size with
  | PassBy.Value, Size.Fixed n =>
    some { size := Size.Fixed n, align := align, pass := PassBy.Value }
  | PassBy.Value, _ => none
  | PassBy.Ref, s => some { size := s, align := align, pass := PassBy.Ref }

/-- Little-endian byte encoding of a value in a fixed number of bytes. -/
def natToLEBytes : Nat → Nat → List Nat
  | 0, _ => []
  | k + 1, v => v % 256 :: natToLEBytes k (v / 256)

/-- Modelled from the spec: the encoder behind `Vec<T>::into_datum`
(`pg_sys::initArrayResult`, `accumArrayResult`, `makeArrayResult`) is not
under src/.  Per the spec (§4.6, §8) it accumulates each optional element in
order, recording presence, and finalizes into the same binary format: a
presence bitmap (1 = present, emitted only when some element is absent) over
a data buffer holding only the present elements, each contributing its
little-endian bytes for a by-value fixed-size layout. -/
def encodeFixedByVal (n : Nat) (S : List (Option Nat)) : RawArrayModel :=
  { elem_layout := { size := Size.Fixed n, align := n, pass := PassBy.Value }
    len := S.length
    nulls_bitmap :=
      if S.any (fun x => x.isNone) then some (S.map (fun x => x.isSome)) else none
    buf := (S.filterMap (fun x => x)).flatMap (fun v => natToLEBytes n v) }

/-- The decode path of `Vec<Option<T>>::from_polymorphic_datum`: construct
the array view, then drain `iter()` into a list. -/
def vec_option_from_datum (raw : RawArrayModel) :
    Except String (List (Except String (Option Nat))) :=
  match ArrayData.deconstruct_from raw with
  | Except.error e => Except.error e
  | Except.ok a => Except.ok (drainFrom a a.len a.iter)

/-- Well-formedness of an array view: the presence model declares exactly the
logical length (the bitmap length invariant of the spec, and how
`deconstruct_from` builds the strict model). -/
def ArrayData.wf (a : ArrayData) : Prop :=
  match a.null_slice with
  | NullKind.Bits b1 => b1.length = a.len
  | NullKind.Strict n => n = a.len

/-- A layout the registry can actually produce for this element type: a
by-value element is fixed-size with a word-sized-or-smaller positive size. -/
def ArrayData.validLayout (a : ArrayData) : Prop :=
  a.elem_layout.pass = PassBy.Value →
    ∃ n, a.elem_layout.size = Size.Fixed n ∧ 1 ≤ n ∧ n ≤ USIZE_BYTE_LEN

/-- The spec scenario array: layout `Fixed 4` with alignment 4, presence
bitmap `[1, 0, 1]` over a 2-element data stream holding 1 and 2. -/
def wArr : ArrayData :=
  { null_slice := NullKind.Bits [true, false, true]
    elem_layout := { size := Size.Fixed 4, align := 4, pass := PassBy.Value }
    buf := [1, 0, 0, 0, 2, 0, 0, 0]
    len := 3 }

/-- An array with a leading null: presence bitmap `[0, 1]` over a 1-element
data stream holding 7. -/
def bugArr : ArrayData :=
  { null_slice := NullKind.Bits [false, true]
    elem_layout := { size := Size.Fixed 4, align := 4, pass := PassBy.Value }
    buf := [7, 0, 0, 0]
    len := 2 }

/-- A bitmap-backed array whose bitmap has no zero bits. -/
def allArr : ArrayData :=
  { null_slice := NullKind.Bits [true, true]
    elem_layout := { size := Size.Fixed 4, align := 4, pass := PassBy.Value }
    buf := [1, 0, 0, 0, 2, 0, 0, 0]
    len := 2 }

/-- A raw array whose fixed element size 3 is not a multiple of its
alignment 4. -/
def rawBad : RawArrayModel :=
  { elem_layout := { size := Size.Fixed 3, align := 4, pass := PassBy.Value }
    len := 0
    nulls_bitmap := none
    buf := [] }

theorem nullGet_eq_none_iff (a : ArrayData) (hwf : a.wf) (i : Nat) :
    a.null_slice.get i = none ↔ a.len ≤ i := by
  rcases hn : a.null_slice with b1 | m <;>
    simp only [ArrayData.wf, hn] at hwf <;> simp only [NullKind.get]
  · rw [← hwf]
    simp [Option.map_eq_none']
  · subst hwf
    split <;> simp <;> omega

theorem nullGet_isSome (a : ArrayData) (hwf : a.wf) {i : Nat} (hi : i < a.len) :
    ∃ b, a.null_slice.get i = some b := by
  cases h : a.null_slice.get i with
  | none => exact absurd ((nullGet_eq_none_iff a hwf i).mp h) (by omega)
  | some b => exact ⟨b, rfl⟩

theorem walk_eq_walkPtr (a : ArrayData) (hwf : a.wf) :
    ∀ i, i ≤ a.len → a.walk i = Except.ok (a.walkPtr i)
  | 0, _ => rfl
  | i + 1, h => by
    obtain ⟨b, hb⟩ := nullGet_isSome a hwf (i := i) (by omega)
    have ih := walk_eq_walkPtr a hwf i (by omega)
    cases b <;>
      simp only [ArrayData.walk, ih, hb, ArrayData.walkPtr] <;> simp

theorem bring_ok_of_valid (a : ArrayData) (hv : a.validLayout) (p : Nat) :
    ∃ v, a.bring_it_back_now p false = Except.ok (some v) := by
  cases hp : a.elem_layout.pass with
  | Ref => exact ⟨p, by simp [ArrayData.bring_it_back_now, hp]⟩
  | Value =>
    obtain ⟨n, hs, h1, h8⟩ := hv hp
    exact ⟨readLE a.buf p n,
      by simp [ArrayData.bring_it_back_now, hp, hs, bytes_to_datum, h1, h8, Except.map]⟩

theorem bring_ok_any (a : ArrayData) (hv : a.validLayout) (p : Nat) (b : Bool) :
    ∃ v, a.bring_it_back_now p b = Except.ok v := by
  cases b with
  | true => exact ⟨none, by simp [ArrayData.bring_it_back_now]⟩
  | false =>
    obtain ⟨v, hvv⟩ := bring_ok_of_valid a hv p
    exact ⟨some v, hvv⟩

theorem get_present (a : ArrayData) (hwf : a.wf) (hv : a.validLayout) {i : Nat}
    (h : a.null_slice.get i = some false) :
    ∃ v, a.bring_it_back_now (a.walkPtr i) false = Except.ok (some v)
      ∧ a.get i = Except.ok (some (some v)) := by
  have hi : i < a.len := by
    by_contra hle
    have hh := (nullGet_eq_none_iff a hwf i).mpr (by omega)
    rw [h] at hh
    cases hh
  obtain ⟨v, hvv⟩ := bring_ok_of_valid a hv (a.walkPtr i)
  refine ⟨v, hvv, ?_⟩
  simp only [ArrayData.get, h, walk_eq_walkPtr a hwf i (by omega), hvv]

theorem cstrLenAux_spec (l : List Nat) (hz : (0 : Nat) ∈ l) :
    l.getD (cstrLenAux l) 0 = 0 ∧ ∀ d, d < cstrLenAux l → l.getD d 0 ≠ 0 := by
  induction l with
  | nil => cases hz
  | cons b rest ih =>
    by_cases hb : b = 0
    · subst hb
      refine ⟨by simp [cstrLenAux], ?_⟩
      intro d hd
      simp [cstrLenAux] at hd
    · have hz1 : (0 : Nat) ∈ rest := by
        rcases List.mem_cons.mp hz with h | h
        · exact absurd h.symm hb
        · exact h
      obtain ⟨h1, h2⟩ := ih hz1
      refine ⟨by simpa [cstrLenAux, hb] using h1, ?_⟩
      intro d hd
      simp only [cstrLenAux, if_neg hb] at hd
      cases d with
      | zero => simpa using hb
      | succ d1 => simpa using h2 d1 (by omega)

theorem getD_drop (buf : List Nat) (p d : Nat) :
    (buf.drop p).getD d 0 = buf.getD (p + d) 0 := by
  simp [List.getD_eq_getElem?_getD, List.getElem?_drop]

theorem wArr_wf : wArr.wf := rfl

theorem wArr_valid : wArr.validLayout := fun _ => ⟨4, rfl, by decide, by decide⟩

theorem allArr_wf : allArr.wf := rfl

theorem allArr_valid : allArr.validLayout := fun _ => ⟨4, rfl, by decide, by decide⟩
/-- C1: for every well-formed array view and index `i`, `get i` returns outer
`none` iff `i` is out of logical bounds; returns `some none` iff the presence
model marks slot `i` null (for a bitmap, bit value 0 after the polarity flip;
for the all-present model, never); otherwise it returns the value decoded at
the byte offset reached from the data start by one hop per present
predecessor index, consulting the presence model at every such index. -/
theorem c1_get_trichotomy (a : ArrayData) (i : Nat) (hwf : a.wf) (hv : a.validLayout) :
    (a.get i = Except.ok none ↔ a.len ≤ i)
    ∧ (a.get i = Except.ok (some none) ↔ a.null_slice.get i = some true)
    ∧ (∀ b1, a.null_slice = NullKind.Bits b1 →
        (a.null_slice.get i = some true ↔ b1[i]? = some false))
    ∧ (∀ m, a.null_slice = NullKind.Strict m → a.null_slice.get i ≠ some true)
    ∧ (a.null_slice.get i = some false →
        ∃ v, a.bring_it_back_now (a.walkPtr i) false = Except.ok (some v)
          ∧ a.get i = Except.ok (some (some v))) := by
  refine ⟨⟨?_, ?_⟩, ⟨?_, ?_⟩, ?_, ?_, fun h => get_present a hwf hv h⟩
  · intro h
    by_contra hlt
    obtain ⟨b, hb⟩ := nullGet_isSome a hwf (i := i) (by omega)
    cases b with
    | true => simp [ArrayData.get, hb] at h
    | false =>
      obtain ⟨v, -, hg⟩ := get_present a hwf hv hb
      rw [hg] at h
      simp at h
  · intro h
    have hn := (nullGet_eq_none_iff a hwf i).mpr h
    simp [ArrayData.get, hn]
  · intro h
    cases hb : a.null_slice.get i with
    | none => simp [ArrayData.get, hb] at h
    | some b =>
      cases b with
      | true => rfl
      | false =>
        obtain ⟨v, -, hg⟩ := get_present a hwf hv hb
        rw [hg] at h
        simp at h
  · intro h
    simp [ArrayData.get, h]
  · intro b1 hb1
    rw [hb1]
    simp only [NullKind.get]
    simp [Option.map_eq_some']
  · intro m hm
    rw [hm]
    simp only [NullKind.get]
    split <;> simp

/-- Witness for C1: the spec scenario array, queried out of bounds. -/
theorem c1_witness : wArr.get 5 = Except.ok none :=
  ((c1_get_trichotomy wArr 5 wArr_wf wArr_valid).1).mpr (by decide)

/-- C2: the hop function adds `n` for a `Fixed n` layout; for a varlena
layout with power-of-two alignment it adds the self-described total length
rounded up to the alignment by `(align - total mod align) mod align`; and
for a NUL-terminated layout it adds `strlen + 2` where `strlen` is the
distance from the pointer to the first zero byte. -/
theorem c2_one_hop_characterization (buf : List Nat) (p n al al2 al3 k : Nat)
    (pv pr ps : PassBy) (hal : al = 2 ^ k) (hz : (0 : Nat) ∈ buf.drop p) :
    (one_hop_this_time buf { size := Size.Fixed n, align := al2, pass := pv } p = p + n)
    ∧ (one_hop_this_time buf { size := Size.Varlena, align := al, pass := pr } p
        = p + (varsize_any buf p + (al - varsize_any buf p % al) % al))
    ∧ (one_hop_this_time buf { size := Size.CStr, align := al3, pass := ps } p
          = p + (cstrLen buf p + 2)
      ∧ buf.getD (p + cstrLen buf p) 0 = 0
      ∧ ∀ d, d < cstrLen buf p → buf.getD (p + d) 0 ≠ 0) := by
  refine ⟨rfl, ?_, rfl, ?_, ?_⟩
  · subst hal
    show p + (varsize_any buf p +
        (if varsize_any buf p &&& (2 ^ k - 1) ≠ 0
         then 2 ^ k - (varsize_any buf p &&& (2 ^ k - 1)) else 0)) = _
    congr 1
    set v := varsize_any buf p with hvdef
    rw [Nat.and_pow_two_sub_one_eq_mod]
    by_cases h0 : v % 2 ^ k = 0
    · simp [h0, Nat.mod_self]
    · have hpos : 0 < 2 ^ k := Nat.two_pow_pos k
      have hlt : v % 2 ^ k < 2 ^ k := Nat.mod_lt _ hpos
      rw [if_pos h0, Nat.mod_eq_of_lt (show 2 ^ k - v % 2 ^ k < 2 ^ k by omega)]
  · have h := (cstrLenAux_spec (buf.drop p) hz).1
    rw [getD_drop] at h
    exact h
  · intro d hd
    have h := (cstrLenAux_spec (buf.drop p) hz).2 d hd
    rw [getD_drop] at h
    exact h

/-- Witness for C2: varlena hop on a concrete three-byte buffer. -/
theorem c2_witness :
    one_hop_this_time [5, 0, 3] { size := Size.Varlena, align := 4, pass := PassBy.Ref } 0
      = 0 + (varsize_any [5, 0, 3] 0 + (4 - varsize_any [5, 0, 3] 0 % 4) % 4) :=
  (c2_one_hop_characterization [5, 0, 3] 0 7 4 1 1 2
    PassBy.Value PassBy.Ref PassBy.Ref (by decide) (by decide)).2.1

/-- C3: a null slot consumes no buffer bytes: if `get i` reports a logical
null, the walk offset for index `i + 1` equals the offset index `i` would
have used, and a present slot `i + 1` is decoded exactly there. -/
theorem c3_null_consumes_no_bytes (a : ArrayData) (i : Nat)
    (hwf : a.wf) (hv : a.validLayout) (h : a.get i = Except.ok (some none)) :
    a.walkPtr (i + 1) = a.walkPtr i
    ∧ (a.null_slice.get (i + 1) = some false →
        ∃ v, a.bring_it_back_now (a.walkPtr i) false = Except.ok (some v)
          ∧ a.get (i + 1) = Except.ok (some (some v))) := by
  have hnull : a.null_slice.get i = some true := by
    cases hb : a.null_slice.get i with
    | none => simp [ArrayData.get, hb] at h
    | some b =>
      cases b with
      | true => rfl
      | false =>
        obtain ⟨v, -, hg⟩ := get_present a hwf hv hb
        rw [hg] at h
        simp at h
  have hstep : a.walkPtr (i + 1) = a.walkPtr i := by
    simp [ArrayData.walkPtr, hnull]
  refine ⟨hstep, fun h1 => ?_⟩
  obtain ⟨v, hb, hg⟩ := get_present a hwf hv h1
  rw [hstep] at hb
  exact ⟨v, hb, hg⟩

/-- Witness for C3: the null at index 1 of the scenario array moves no bytes. -/
theorem c3_witness : wArr.walkPtr 2 = wArr.walkPtr 1 :=
  (c3_null_consumes_no_bytes wArr 1 wArr_wf wArr_valid rfl).1

/-- C4 (code evidence): on an array with a leading null the fresh iterator
disagrees with random access at index 1.  `get 1` decodes 7 at the data
start, while the second drained item is 0, decoded one hop past the data
start, because `next` hops whenever the slot at the bumped index is present
rather than when the slot just consumed was present. -/
theorem c4_iter_disagrees_with_get_on_leading_null :
    bugArr.get 1 = Except.ok (some (some 7))
    ∧ (drainFrom bugArr 2 bugArr.iter)[1]? = some (Except.ok (some 0))
    ∧ (Except.ok (some 0) : Except String (Option Nat)) ≠ Except.ok (some 7) := by
  refine ⟨rfl, rfl, ?_⟩
  intro h
  simp at h

/-- C5 (code evidence): encoding `[none, some 7]` with a by-value `Fixed 4`
layout and decoding through the `Vec<Option<T>>` path yields
`[none, some 0]`: presence is preserved but the present value is decoded one
hop past its bytes, so the round trip is not the identity. -/
theorem c5_roundtrip_fails_on_leading_null :
    vec_option_from_datum (encodeFixedByVal 4 [none, some 7])
      = Except.ok [Except.ok none, Except.ok (some 0)]
    ∧ vec_option_from_datum (encodeFixedByVal 4 [none, some 7])
      ≠ Except.ok [Except.ok none, Except.ok (some 7)] := by
  refine ⟨rfl, ?_⟩
  intro h
  rw [show vec_option_from_datum (encodeFixedByVal 4 [none, some 7])
      = Except.ok [Except.ok none, Except.ok (some 0)] from rfl] at h
  simp at h

/-- C6: `iter_deny_null` fails before producing any cursor exactly when the
presence model reports a null: for a bitmap, unless all bits are set; for
the all-present model, never.  When no null exists it returns the same
fresh cursor as `iter`. -/
theorem c6_deny_null_precondition (a : ArrayData) (b1 : List Bool) (m : Nat) :
    (a.iter_deny_null = Except.error "array contains NULL" ↔ a.null_slice.any = true)
    ∧ (NullKind.any (NullKind.Bits b1) = !b1.all (fun b => b))
    ∧ (NullKind.any (NullKind.Strict m) = false)
    ∧ (a.null_slice.any = false → a.iter_deny_null = Except.ok a.iter) := by
  refine ⟨?_, rfl, rfl, ?_⟩
  · simp only [ArrayData.iter_deny_null]
    split
    · rename_i h
      simp [h]
    · rename_i h
      simp [h]
  · intro h
    simp [ArrayData.iter_deny_null, h, ArrayData.iter]

/-- Witness for C6: the scenario array has a null, so `iter_deny_null`
fails. -/
theorem c6_witness : wArr.iter_deny_null = Except.error "array contains NULL" :=
  ((c6_deny_null_precondition wArr [] 0).1).mpr (by decide)

/-- C7: a by-value passing mode combined with a non-fixed size class is
rejected when the Layout Descriptor is constructed (spec-modelled
constructor), and an array view whose layout came out of that constructor
can never reach the corresponding decode-time panic branch. -/
theorem c7_byval_nonfixed_fatal_at_construction (pass : PassBy) (size : Size)
    (align : Nat) (a : ArrayData) (p : Nat) :
    (Layout.construct pass size align = none
      ↔ pass = PassBy.Value ∧ ∀ n, size ≠ Size.Fixed n)
    ∧ (∀ L, Layout.construct pass size align = some L → a.elem_layout = L →
        a.bring_it_back_now p false
          ≠ Except.error "unrecognized pass-by-value array element layout size") := by
  constructor
  · cases pass <;> cases size <;> simp [Layout.construct]
  · intro L hL ha
    cases pass with
    | Ref =>
      simp only [Layout.construct] at hL
      have hL2 := Option.some.inj hL
      subst hL2
      simp [ArrayData.bring_it_back_now, ha]
    | Value =>
      cases size with
      | Fixed n =>
        simp only [Layout.construct] at hL
        have hL2 := Option.some.inj hL
        subst hL2
        by_cases hn : 1 ≤ n ∧ n ≤ USIZE_BYTE_LEN
        · simp [ArrayData.bring_it_back_now, ha, bytes_to_datum, hn, Except.map]
        · simp [ArrayData.bring_it_back_now, ha, bytes_to_datum, hn, Except.map]
      | Varlena => simp [Layout.construct] at hL
      | CStr => simp [Layout.construct] at hL

/-- Witness for C7: a by-value varlena layout is rejected at construction. -/
theorem c7_witness : Layout.construct PassBy.Value Size.Varlena 4 = none :=
  (c7_byval_nonfixed_fatal_at_construction PassBy.Value Size.Varlena 4 wArr 0).1.mpr
    ⟨rfl, fun _ h => Size.noConfusion h⟩

/-- C8: constructing an array view fails exactly when the layout is
`Fixed n` with `n` not a multiple of the alignment, and succeeds on this
check whenever `n` is a multiple of the alignment. -/
theorem c8_fixed_alignment_checked_at_construction (raw : RawArrayModel) :
    ((∃ e, ArrayData.deconstruct_from raw = Except.error e)
      ↔ ∃ n, raw.elem_layout.size = Size.Fixed n ∧ n % raw.elem_layout.align ≠ 0)
    ∧ (∀ n, raw.elem_layout.size = Size.Fixed n → n % raw.elem_layout.align = 0 →
        ∃ a, ArrayData.deconstruct_from raw = Except.ok a
          ∧ a.elem_layout = raw.elem_layout ∧ a.len = raw.len) := by
  obtain ⟨⟨sz, al, ps⟩, len, nb, buf⟩ := raw
  cases sz with
  | Fixed n =>
    by_cases h : n % al = 0
    · constructor
      · simp [ArrayData.deconstruct_from, h]
      · intro n1 hn1 hmod
        cases nb with
        | some bits =>
          refine ⟨⟨NullKind.Bits bits, ⟨Size.Fixed n, al, ps⟩, buf, len⟩, ?_, rfl, rfl⟩
          simp [ArrayData.deconstruct_from, h]
        | none =>
          refine ⟨⟨NullKind.Strict len, ⟨Size.Fixed n, al, ps⟩, buf, len⟩, ?_, rfl, rfl⟩
          simp [ArrayData.deconstruct_from, h]
    · constructor
      · simp only [ArrayData.deconstruct_from, if_neg h]
        constructor
        · intro _
          exact ⟨n, rfl, h⟩
        · intro _
          exact ⟨_, rfl⟩
      · intro n1 hn1 hmod
        have hn1n : n1 = n := by
          injection hn1 with h2
          exact h2.symm
        subst hn1n
        exact absurd hmod h
  | Varlena =>
    constructor
    · simp [ArrayData.deconstruct_from]
    · intro n1 hn1 hmod
      cases hn1
  | CStr =>
    constructor
    · simp [ArrayData.deconstruct_from]
    · intro n1 hn1 hmod
      cases hn1

/-- Witness for C8: `Fixed 3` with alignment 4 is rejected eagerly. -/
theorem c8_witness : ∃ e, ArrayData.deconstruct_from rawBad = Except.error e :=
  (c8_fixed_alignment_checked_at_construction rawBad).1.mpr ⟨3, rfl, by decide⟩

theorem drain_spec (a : ArrayData) (hwf : a.wf) (hv : a.validLayout) :
    ∀ fuel c p, c ≤ a.len → a.len - c ≤ fuel →
      (drainFrom a fuel ⟨c, p⟩).length = a.len - c
      ∧ ∀ x ∈ drainFrom a fuel ⟨c, p⟩, ∃ v, x = Except.ok v := by
  intro fuel
  induction fuel with
  | zero =>
    intro c p hc hf
    have h0 : a.len - c = 0 := by omega
    simp [drainFrom, h0]
  | succ fuel ih =>
    intro c p hc hf
    by_cases hcl : c < a.len
    · obtain ⟨b, hb⟩ := nullGet_isSome a hwf hcl
      obtain ⟨v, hvv⟩ := bring_ok_any a hv p b
      simp only [drainFrom, ArrayIterator.next, hb]
      obtain ⟨ih1, ih2⟩ := ih (c + 1)
        (if a.null_slice.get (c + 1) = some false
         then one_hop_this_time a.buf a.elem_layout p else p)
        (by omega) (by omega)
      constructor
      · simp only [List.length_cons, ih1]
        omega
      · intro x hx
        rcases List.mem_cons.mp hx with h | h
        · exact ⟨v, h.trans hvv⟩
        · exact ih2 x h
    · have hc0 : c = a.len := by omega
      have hb : a.null_slice.get c = none :=
        (nullGet_eq_none_iff a hwf c).mpr (by omega)
      simp [drainFrom, ArrayIterator.next, hb]
      omega

/-- C9: fully draining a fresh `iter()` produces exactly `len()` items
(counting yielded nulls), and every produced item is an actual yield, not a
panic. -/
theorem c9_drain_length (a : ArrayData) (fuel : Nat) (hwf : a.wf)
    (hv : a.validLayout) (hfuel : a.len ≤ fuel) :
    (drainFrom a fuel a.iter).length = a.len
    ∧ ∀ x ∈ drainFrom a fuel a.iter, ∃ v, x = Except.ok v := by
  have h := drain_spec a hwf hv fuel 0 0 (by omega) (by omega)
  simpa [ArrayData.iter] using h

/-- Witness for C9 on the scenario array. -/
theorem c9_witness : (drainFrom wArr 3 wArr.iter).length = wArr.len :=
  (c9_drain_length wArr 3 wArr_wf wArr_valid (by decide)).1

theorem stateAfterInto_curr (a : ArrayData) (hwf : a.wf) :
    ∀ k, k ≤ a.len → (stateAfterInto a k).curr = k
  | 0, _ => rfl
  | k + 1, h => by
    have ih := stateAfterInto_curr a hwf k (by omega)
    obtain ⟨b, hb⟩ := nullGet_isSome a hwf (show k < a.len by omega)
    unfold stateAfterInto
    unfold ArrayIntoIterator.next
    rw [ih, hb]

/-- C10: for the owning iterator, after `k` items have been yielded the
size hint is the exact pair for a strict (no-bitmap) array and has lower
bound zero for a bitmap-backed array, even when the bitmap has no zero
bits. -/
theorem c10_size_hint (a : ArrayData) (k : Nat) (hwf : a.wf)
    (_hv : a.validLayout) (hk : k ≤ a.len) :
    (stateAfterInto a k).curr = k
    ∧ (∀ m, a.null_slice = NullKind.Strict m →
        ArrayIntoIterator.size_hint a (stateAfterInto a k)
          = (a.len - k, some (a.len - k)))
    ∧ (∀ b1, a.null_slice = NullKind.Bits b1 →
        ArrayIntoIterator.size_hint a (stateAfterInto a k)
          = (0, some (a.len - k))) := by
  have hcurr := stateAfterInto_curr a hwf k hk
  refine ⟨hcurr, ?_, ?_⟩
  · intro m hm
    simp [ArrayIntoIterator.size_hint, hcurr, hm]
  · intro b1 hb1
    simp [ArrayIntoIterator.size_hint, hcurr, hb1]

/-- Witness for C10: a bitmap-backed array with no zero bits still reports a
zero lower bound after one yield. -/
theorem c10_witness :
    ArrayIntoIterator.size_hint allArr (stateAfterInto allArr 1)
      = (0, some (allArr.len - 1)) :=
  ((c10_size_hint allArr 1 allArr_wf allArr_valid (by decide)).2.2) [true, true] rfl

end PgrxArray
